import Mathlib

/-!
# Verification of the team assignment engine

Shallow embedding of the team assignment engine of this repository:
`src/chains/team_builder_node.py` (data schemas, the scheduler helper
`is_employee_available`, and `team_builder_node`'s in-memory assignment
algorithm) together with the skill taxonomy of `src/chains/skills_graph.py`.

Modelling conventions:

* Python `int` day counts are modelled as `Int`; the floating point match
  scores are modelled over an arbitrary `LinearOrderedField α` (the real code
  instantiates this at `ℝ` through the embedding pipeline defined at the end
  of the definitions section; concrete witnesses instantiate it at `ℚ`).
* The engine obtains the embedding data only through the clipped
  cosine-similarity matrix that `np.dot` of the two normalized embedding
  matrices produces, so the engine is parameterized by
  `simOf : List String → List String → List (List α)`; the faithful real
  instantiation `cosSimMatrix` is defined below from the embedding function.
* CPython enumerates a `set` in a hash-seed-dependent order.  Every place the
  Python code converts a set to a list (`list(set(..))`,
  `list(a - b)`, `list(a.union(b))`) is modelled as `σ ls` where `ls` is the
  canonical (first-occurrence) member list and `σ : List String → List String`
  is an enumeration oracle standing for the process's set-iteration order;
  a run of the process fixes one `σ`, and a valid `σ` permutes its input.
* `np.divide(E, norms, where=norms != 0)` with the default `out=None` leaves
  the masked rows *uninitialized* (documented numpy behaviour); the
  uninitialized memory is modelled by an explicit `junk : ℕ → List ℝ` row
  oracle in `pyNormalizeRows`.
* Mutation of the per-employee schedule/assignment dictionaries is modelled
  by explicit state passing (`EngineState`); file I/O and the load-failure
  early returns of `team_builder_node` are outside the embedded core.
-/

/-! ## Data schemas (mirroring the Pydantic models) -/

/-- Model of `ProjectTask` from `src/chains/project_analyzer_node.py` (the fields the
team builder reads; `description` and `depends_on` are never consulted). -/
structure ProjectTask where
  name : String
  skills : List String
  start_days_from_kickoff : Int
  duration_days : Int
deriving DecidableEq, Repr

/-- Model of `EmployeeSkill`: one employee record of the skills summary artifact.
`summary` maps a category label to the skills in that category (a JSON
object, i.e. an insertion-ordered association list). -/
structure EmployeeSkill where
  filename : String
  summary : List (String × List String)
deriving DecidableEq, Repr

/-- Model of `EmployeeAssignment`: a single task assigned to an employee. -/
structure EmployeeAssignment (α : Type) where
  task_name : String
  start_day : Int
  end_day : Int
  skills_match : List String
  missing_skills : List String
  semantic_match_score : α
deriving DecidableEq, Repr

/-- Model of `TeamMember`: a team member and all their assigned tasks. -/
structure TeamMember (α : Type) where
  employee_filename : String
  assignments : List (EmployeeAssignment α)
deriving DecidableEq, Repr

/-- Model of `TeamBuilderOutput`: the final output of the team builder node. -/
structure TeamBuilderOutput (α : Type) where
  team : List (TeamMember α)
  unassigned_tasks : List String
  rationale : String
deriving DecidableEq, Repr

/-- Python's `str.lower()`, modelled character-wise over the string's
character list (`Char.toLower` agrees with Python on the ASCII range all
fixture data lives in); defined over `String.data` so that the kernel can
evaluate it. -/
def strLower (s : String) : String :=
  ⟨s.data.map Char.toLower⟩

/-! ## Scheduler helper (`is_employee_available`, lines 69–75) -/

/-- The scheduler helper `is_employee_available(schedule, task_start, task_duration)`:
computes `task_end = task_start + task_duration` and returns `False` as soon
as some busy interval satisfies
`task_start < busy_end and task_end > busy_start`, else `True`.
The Python function only reads `schedule`; the embedding is a pure function
of it, so it cannot modify the schedule. -/
def is_employee_available (schedule : List (Int × Int)) (task_start : Int)
    (task_duration : Int) : Bool :=
  let task_end := task_start + task_duration
  schedule.all fun b => !(decide (task_start < b.2) && decide (task_end > b.1))

/-- Half-open interval overlap, the relation `is_employee_available` tests:
`(s₁, e₁)` and `(s₂, e₂)` overlap when `s₁ < e₂ ∧ s₂ < e₁`. -/
def intervalsOverlap (a b : Int × Int) : Prop :=
  a.1 < b.2 ∧ b.1 < a.2

instance (a b : Int × Int) : Decidable (intervalsOverlap a b) := by
  unfold intervalsOverlap; infer_instance

/-! ## Skill taxonomy (`src/chains/skills_graph.py`) -/

/-- The static edge list of `create_skills_graph` (lines 10–128), before the
lowercase normalization applied on insertion. -/
def skillEdgesRaw : List (String × String) :=
  [("Computer Science", "Algorithms"),
   ("Computer Science", "Data Structures"),
   ("Computer Science", "Design Patterns"),
   ("Design Patterns", "MVC"),
   ("Design Patterns", "Singleton"),
   ("Design Patterns", "Microservices"),
   ("Computer Science", "Git"),
   ("Programming", "Python"),
   ("Programming", "JavaScript"),
   ("Programming", "Java"),
   ("Programming", "C++"),
   ("Programming", "Go"),
   ("Programming", "Rust"),
   ("Programming", "TypeScript"),
   ("Web Development", "HTML"),
   ("Web Development", "CSS"),
   ("CSS", "Sass"),
   ("CSS", "Tailwind"),
   ("Web Development", "JavaScript"),
   ("JavaScript", "TypeScript"),
   ("JavaScript", "React"),
   ("React", "Next.js"),
   ("React", "Redux"),
   ("JavaScript", "Vue.js"),
   ("Vue.js", "Nuxt.js"),
   ("JavaScript", "Angular"),
   ("Web Development", "Web Accessibility"),
   ("Backend Development", "API Design"),
   ("API Design", "REST"),
   ("API Design", "GraphQL"),
   ("Backend Development", "Python"),
   ("Python", "Django"),
   ("Python", "FastAPI"),
   ("Python", "Flask"),
   ("Backend Development", "Node.js"),
   ("Node.js", "Express.js"),
   ("Node.js", "NestJS"),
   ("Backend Development", "Java"),
   ("Java", "Spring Boot"),
   ("Backend Development", "Go"),
   ("Go", "Gin"),
   ("Mobile Development", "iOS"),
   ("iOS", "Swift"),
   ("iOS", "SwiftUI"),
   ("Mobile Development", "Android"),
   ("Android", "Kotlin"),
   ("Android", "Jetpack Compose"),
   ("Mobile Development", "Cross-Platform"),
   ("Cross-Platform", "React Native"),
   ("Cross-Platform", "Flutter"),
   ("Data Science", "Python"),
   ("Data Science", "Statistics"),
   ("Python", "NumPy"),
   ("Python", "Pandas"),
   ("Data Science", "Machine Learning"),
   ("Machine Learning", "Scikit-Learn"),
   ("Machine Learning", "Deep Learning"),
   ("Deep Learning", "TensorFlow"),
   ("Deep Learning", "PyTorch"),
   ("Deep Learning", "Keras"),
   ("Data Science", "Data Visualization"),
   ("Data Visualization", "Matplotlib"),
   ("Data Visualization", "Seaborn"),
   ("Data Visualization", "Tableau"),
   ("Machine Learning", "NLP"),
   ("NLP", "HuggingFace"),
   ("NLP", "OpenAI API"),
   ("Databases", "SQL"),
   ("SQL", "PostgreSQL"),
   ("SQL", "MySQL"),
   ("SQL", "SQLite"),
   ("Databases", "NoSQL"),
   ("NoSQL", "MongoDB"),
   ("NoSQL", "Redis"),
   ("NoSQL", "Cassandra"),
   ("Databases", "Graph DB"),
   ("Graph DB", "Neo4j"),
   ("DevOps", "CI/CD"),
   ("CI/CD", "Jenkins"),
   ("CI/CD", "GitHub Actions"),
   ("CI/CD", "GitLab CI"),
   ("DevOps", "Containerization"),
   ("Containerization", "Docker"),
   ("Containerization", "Kubernetes"),
   ("DevOps", "Infrastructure as Code"),
   ("Infrastructure as Code", "Terraform"),
   ("Infrastructure as Code", "Ansible"),
   ("Cloud Computing", "AWS"),
   ("AWS", "EC2"),
   ("AWS", "S3"),
   ("AWS", "Lambda"),
   ("Cloud Computing", "Azure"),
   ("Cloud Computing", "Google Cloud"),
   ("Cybersecurity", "Network Security"),
   ("Cybersecurity", "Penetration Testing"),
   ("Penetration Testing", "Kali Linux"),
   ("Penetration Testing", "Metasploit"),
   ("Cybersecurity", "App Security"),
   ("App Security", "OWASP Top 10"),
   ("Cybersecurity", "Cryptography")]

/-- Edges after `G.add_edge(parent.lower(), child.lower())` (line 132). -/
def skillEdges : List (String × String) :=
  skillEdgesRaw.map fun e => (strLower e.1, strLower e.2)

/-- The node set of the skills graph. -/
def skillNodes : List String :=
  (skillEdges.map Prod.fst ++ skillEdges.map Prod.snd).dedup

/-- Lookup `get_skill_relatives(graph, skill)` (lines 136–147): lowercases the
query, returns `(None, None)` when the skill is not a node, else the
predecessor and successor lists. -/
def get_skill_relatives (skill : String) :
    Option (List String) × Option (List String) :=
  let s := strLower skill
  if s ∈ skillNodes then
    (some ((skillEdges.filter fun e => e.2 = s).map Prod.fst),
     some ((skillEdges.filter fun e => e.1 = s).map Prod.snd))
  else (none, none)

/-- The union `parents(s) ∪ children(s)` that the spec's taxonomy pass
intersects with the candidate skills (`None` contributing nothing). -/
def skillRelativesUnion (skill : String) : List String :=
  ((get_skill_relatives skill).1.getD []) ++ ((get_skill_relatives skill).2.getD [])

/-! ## The team builder engine (`team_builder_node`, lines 81–271)

The engine is generic over a `LinearOrderedField α` of scores and over the
similarity-matrix provider `simOf` (rows indexed by the task's skill list,
columns by the employee's skill list), and takes the set-enumeration oracle
`σ` described in the header. -/

/-- Constant `MIN_SEMANTIC_SCORE_THRESHOLD = 0.2` (line 92). -/
def MIN_SEMANTIC_SCORE_THRESHOLD (α : Type) [LinearOrderedField α] : α := 1 / 5

/-- Constant `SKILL_SIMILARITY_THRESHOLD = 0.5` (line 93). -/
def SKILL_SIMILARITY_THRESHOLD (α : Type) [LinearOrderedField α] : α := 1 / 2

/-- The prepared list `task_skills = [skill.lower() for skill in task.skills if skill]`
(line 141): empty labels are dropped, the rest lowercased (duplicates kept;
this is the list the scoring pipeline consumes). -/
def taskSkillsOf (t : ProjectTask) : List String :=
  (t.skills.filter fun s => s ≠ "").map strLower

/-- The per-employee skill list (line 126):
`list(set(skill.lower() for category in emp.summary.values()
for skill in category if category))`.  The `if category` guard is vacuous
(the inner loop only runs over non-empty categories), so this is the
`σ`-enumeration of the deduplicated lowercased union of all categories. -/
def empSkillsOf (σ : List String → List String) (e : EmployeeSkill) :
    List String :=
  σ (((e.summary.map Prod.snd).flatten.map strLower).dedup)

/-- One insertion into a Python dict built by a comprehension: a repeated key
keeps its first position but takes the later value. -/
def pyDictUpsert (acc : List (String × List String))
    (kv : String × List String) : List (String × List String) :=
  if acc.any fun p => p.1 = kv.1 then
    acc.map fun p => if p.1 = kv.1 then kv else p
  else acc ++ [kv]

/-- The `employees` dict of lines 124–130, as an insertion-ordered
association list from filename to prepared skill list (the mutable
`schedule` field lives in `EngineState`). -/
def buildEmployees (σ : List String → List String)
    (data : List EmployeeSkill) : List (String × List String) :=
  data.foldl (fun acc e => pyDictUpsert acc (e.filename, empSkillsOf σ e)) []

/-- Row maximum, `np.max` along a row (the code only applies it to non-empty rows; the
`[]` case is given the junk value `0`). -/
def listMax {α : Type} [LinearOrderedField α] : List α → α
  | [] => 0
  | x :: xs => xs.foldl max x

/-- Mean, `np.mean` of a vector: sum divided by length (division by zero only
arises on inputs the code guards against). -/
def listMean {α : Type} [LinearOrderedField α] (l : List α) : α :=
  l.sum / (l.length : α)

/-- Lines 173–177: the match score of one similarity matrix — the average
over task skills of the best similarity among the employee's skills. -/
def matchScoreOf {α : Type} [LinearOrderedField α] (M : List (List α)) : α :=
  listMean (M.map listMax)

/-- The scoring loop of lines 151–178 over the employees dict: an employee
with an empty skill list scores a literal `0` (lines 155–157); otherwise the
similarity matrix is computed and its `matchScoreOf` recorded.  The local
`similarity_matrix` variable retains the matrix of the *last* employee for
which one was computed; the commit block later reads this stale value, so the
loop also returns it. -/
def scoreEmployees {α : Type} [LinearOrderedField α]
    (simOf : List String → List String → List (List α))
    (taskSkills : List String) :
    List (String × List String) → Option (List (List α)) →
      List (String × α) × Option (List (List α))
  | [], m => ([], m)
  | p :: rest, m =>
    if p.2.isEmpty then
      let r := scoreEmployees simOf taskSkills rest m
      ((p.1, 0) :: r.1, r.2)
    else
      let M := simOf taskSkills p.2
      let r := scoreEmployees simOf taskSkills rest (some M)
      ((p.1, matchScoreOf M) :: r.1, r.2)

/-- The comparison of line 182:
`sorted(candidate_scores, key=lambda x: (x["match_score"], x["employee_id"]),
reverse=True)` — `a` may precede `b` exactly when the key of `b` is
lexicographically at most the key of `a`.  Python's sort is the stable sort
for this total preorder; a stable sort is unique, so the structurally
recursive `List.insertionSort` models it exactly. -/
def candGe {α : Type} [LinearOrderedField α] (a b : String × α) : Prop :=
  b.2 < a.2 ∨ (b.2 = a.2 ∧ b.1 ≤ a.1)

instance {α : Type} [LinearOrderedField α] :
    DecidableRel (candGe (α := α)) := by
  unfold candGe; infer_instance

/-- The engine's mutable state during the loop over sorted tasks. -/
structure EngineState (α : Type) where
  empList : List (String × List String)
  schedules : String → List (Int × Int)
  assignments : String → List (EmployeeAssignment α)
  team : List String
  unassigned : List String
  lastSim : Option (List (List α))

/-- The state before the first task: prepared employees, empty schedules and
assignment lists, empty team, no unassigned tasks, and no similarity matrix
computed yet. -/
def initState (α : Type) (σ : List String → List String)
    (data : List EmployeeSkill) : EngineState α :=
  { empList := buildEmployees σ data
    schedules := fun _ => []
    assignments := fun _ => []
    team := []
    unassigned := []
    lastSim := none }

/-- Team insertion `current_team_members.add(emp_filename)` — Python set insertion, with the
set modelled as its duplicate-free member list (only membership and `len`
are ever read from it). -/
def addTeamMember (team : List String) (id : String) : List String :=
  if id ∈ team then team else team ++ [id]

/-- The three `continue` filters of lines 189–198, in the code's order: the
score filter `match_score < MIN_SEMANTIC_SCORE_THRESHOLD`, the availability
check, and `is_in_team or can_add_to_team`. -/
def passesFilters {α : Type} [LinearOrderedField α]
    (schedules : String → List (Int × Int)) (team : List String) (cap : ℕ)
    (task_start task_duration : Int) (c : String × α) : Bool :=
  !decide (c.2 < MIN_SEMANTIC_SCORE_THRESHOLD α) &&
  is_employee_available (schedules c.1) task_start task_duration &&
  (decide (c.1 ∈ team) || decide (team.length < cap))

/-- The per-task candidate ranking (lines 149–182): score every employee,
then sort by `(match_score, employee_id)` descending. -/
def rankedCandidates {α : Type} [LinearOrderedField α]
    (simOf : List String → List String → List (List α))
    (taskSkills : List String) (st : EngineState α) :
    List (String × α) × Option (List (List α)) :=
  let r := scoreEmployees simOf taskSkills st.empList st.lastSim
  (r.1.insertionSort candGe, r.2)

/-- The first ranked candidate surviving all three filters (lines 185–198),
or `none` when the walk falls through. -/
def pickCandidate {α : Type} [LinearOrderedField α]
    (simOf : List String → List String → List (List α))
    (taskSkills : List String) (cap : ℕ) (task_start task_duration : Int)
    (st : EngineState α) : Option (String × α) :=
  (rankedCandidates simOf taskSkills st).1.find?
    (passesFilters st.schedules st.team cap task_start task_duration)

/-- The skill-partition block of lines 203–226 for the chosen candidate:
`direct_matches ∪ semantically_matched_skills` enumerated as `skills_match`,
the rest of the required set as `missing_skills`.  The semantic pass reads
the *stale* `similarity_matrix` `M` (of the last employee scored, not the
chosen one) through `task_skills.index`. -/
def commitAssignment {α : Type} [LinearOrderedField α]
    (σ : List String → List String) (t : ProjectTask)
    (taskSkills : List String) (task_start task_duration : Int)
    (M : List (List α)) (st : EngineState α) (c : String × α) :
    EmployeeAssignment α :=
  let empSkills := ((st.empList.find? fun p => p.1 = c.1).map Prod.snd).getD []
  let taskSet := taskSkills.dedup
  let direct := taskSet.filter fun s => s ∈ empSkills
  let remaining := σ (taskSet.filter fun s => s ∉ direct)
  let semList :=
    if remaining ≠ [] ∧ empSkills ≠ [] then
      remaining.filter fun s =>
        decide (SKILL_SIMILARITY_THRESHOLD α ≤
          listMax (M.getD (taskSkills.indexOf s) []))
    else []
  let skills_match := σ (direct ++ semList)
  let missing_skills := σ (taskSet.filter fun s => s ∉ skills_match)
  { task_name := t.name
    start_day := task_start
    end_day := task_start + task_duration
    skills_match := skills_match
    missing_skills := missing_skills
    semantic_match_score := c.2 }

/-- The commit block of lines 199–237 for the chosen candidate `c`: append
the interval to the schedule, add the member to the team, and append the
`commitAssignment` record to the candidate's assignment list. -/
def commitTask {α : Type} [LinearOrderedField α]
    (σ : List String → List String) (t : ProjectTask)
    (taskSkills : List String) (task_start task_duration : Int)
    (M : List (List α)) (st : EngineState α) (c : String × α) :
    EngineState α :=
  let task_end := task_start + task_duration
  let id := c.1
  { st with
    schedules := fun k =>
      if k = id then st.schedules k ++ [(task_start, task_end)]
      else st.schedules k
    team := addTeamMember st.team id
    assignments := fun k =>
      if k = id then
        st.assignments k ++ [commitAssignment σ t taskSkills task_start task_duration M st c]
      else st.assignments k }

/-- One iteration of the task loop (lines 140–241): a task with no
(non-empty) required skills is immediately unassigned; otherwise the
candidates are ranked and the first survivor committed, falling back to the
unassigned list. -/
def stepTask {α : Type} [LinearOrderedField α]
    (simOf : List String → List String → List (List α))
    (σ : List String → List String) (cap : ℕ)
    (st : EngineState α) (t : ProjectTask) : EngineState α :=
  let taskSkills := taskSkillsOf t
  if taskSkills.isEmpty then
    { st with unassigned := st.unassigned ++ [t.name] }
  else
    let task_start := t.start_days_from_kickoff
    let task_duration := t.duration_days
    let st1 := { st with lastSim := (rankedCandidates simOf taskSkills st).2 }
    match pickCandidate simOf taskSkills cap task_start task_duration st with
    | none => { st1 with unassigned := st1.unassigned ++ [t.name] }
    | some c =>
      commitTask σ t taskSkills task_start task_duration
        ((rankedCandidates simOf taskSkills st).2.getD []) st1 c

/-- The ordering of line 133: tasks compare by `start_days_from_kickoff`
alone. -/
def taskStartLe (a b : ProjectTask) : Prop :=
  a.start_days_from_kickoff ≤ b.start_days_from_kickoff

instance : DecidableRel taskStartLe := by
  unfold taskStartLe; infer_instance

instance : IsTotal ProjectTask taskStartLe :=
  ⟨fun a b => Int.le_total a.start_days_from_kickoff b.start_days_from_kickoff⟩

instance : IsTrans ProjectTask taskStartLe :=
  ⟨fun _ _ _ hab hbc => le_trans hab hbc⟩

/-- Line 133: `sorted(project_tasks, key=lambda t: t.start_days_from_kickoff)`
— the stable sort on the start offset alone, modelled by the structurally
recursive stable sort `List.insertionSort` (stable sorts for a total
preorder coincide). -/
def sortTasks (tasks : List ProjectTask) : List ProjectTask :=
  tasks.insertionSort taskStartLe

/-- All intermediate states of a run, including the initial and final one
(the state after each prefix of the sorted task list). -/
def runStates {α : Type} [LinearOrderedField α]
    (simOf : List String → List String → List (List α))
    (σ : List String → List String) (cap : ℕ)
    (tasks : List ProjectTask) (data : List EmployeeSkill) :
    List (EngineState α) :=
  (sortTasks tasks).scanl (stepTask simOf σ cap) (initState α σ data)

/-- The final engine state of a run. -/
def finalState {α : Type} [LinearOrderedField α]
    (simOf : List String → List String → List (List α))
    (σ : List String → List String) (cap : ℕ)
    (tasks : List ProjectTask) (data : List EmployeeSkill) : EngineState α :=
  (sortTasks tasks).foldl (stepTask simOf σ cap) (initState α σ data)

/-- Lines 242–259: the output record — members with at least one assignment
in employees-dict order, the unassigned list, and the rationale string. -/
def mkOutput {α : Type} [LinearOrderedField α] (cap : ℕ)
    (st : EngineState α) : TeamBuilderOutput α :=
  let team := st.empList.filterMap fun p =>
    if (st.assignments p.1).isEmpty then none
    else some { employee_filename := p.1, assignments := st.assignments p.1 }
  let capS := toString cap
  let tlen := toString team.length
  let ulen := toString st.unassigned.length
  { team := team
    unassigned_tasks := st.unassigned
    rationale := s!"Requested a team of {capS}. Formed a team of {tlen} based on semantic skill matching and availability. {ulen} tasks could not be assigned." }

/-- The whole embedded engine: `team_builder_node`'s in-memory algorithm from
validated inputs to the team composition record. -/
def runEngine {α : Type} [LinearOrderedField α]
    (simOf : List String → List String → List (List α))
    (σ : List String → List String) (cap : ℕ)
    (tasks : List ProjectTask) (data : List EmployeeSkill) :
    TeamBuilderOutput α :=
  mkOutput cap (finalState simOf σ cap tasks data)

/-- The scheduling invariant (claim C3) over engine states: every
candidate's committed schedule is pairwise non-overlapping, and mirrors the
`(start_day, end_day)` fields of that candidate's assignment list. -/
def SchedInv {α : Type} (st : EngineState α) : Prop :=
  ∀ id, ((st.schedules id).Pairwise fun a b => ¬ intervalsOverlap a b) ∧
    st.schedules id = ((st.assignments id).map fun a => (a.start_day, a.end_day))

/-- The team-cap invariant (claim C4): the committed team list is
duplicate-free, its size is within the cap, and it contains every candidate
holding at least one assignment. -/
def TeamInv {α : Type} (cap : ℕ) (st : EngineState α) : Prop :=
  st.team.Nodup ∧ st.team.length ≤ cap ∧
    ∀ id, st.assignments id ≠ [] → id ∈ st.team

/-- The matched/missing partition property of claim C8, relative to a task:
the assignment names the task, and its matched and missing skill sets are
disjoint and together exactly cover the task's prepared required-skill set
`taskSkillsOf t` (lower-cased, empty labels dropped; sets compared through
`List.toFinset`). -/
def AssignPartition {α : Type} (a : EmployeeAssignment α) (t : ProjectTask) :
    Prop :=
  a.task_name = t.name ∧
  a.skills_match.toFinset ∪ a.missing_skills.toFinset = (taskSkillsOf t).toFinset ∧
  a.skills_match.toFinset ∩ a.missing_skills.toFinset = ∅

/-! ## The real-valued embedding pipeline (lines 159–177)

This is the faithful instantiation of `simOf`: embed both skill lists,
normalize each row by its `np.linalg.norm`, take the dot-product matrix and
clip it to `[-1, 1]`.  Machine floats are modelled by `ℝ`. -/

/-- Dot product of two rows. -/
noncomputable def dotR (u v : List ℝ) : ℝ :=
  (List.zipWith (fun a b => a * b) u v).sum

/-- Euclidean norm of a row, `np.linalg.norm`. -/
noncomputable def normR (v : List ℝ) : ℝ :=
  Real.sqrt (dotR v v)

/-- Clipping `np.clip(x, -1.0, 1.0)`. -/
noncomputable def clipR (x : ℝ) : ℝ :=
  min 1 (max (-1) x)

/-- Row normalization `np.divide(E, norms, where=norms != 0)` with the default `out=None`
(lines 166–167): rows with non-zero norm are divided by their norm; rows
with zero norm are *left uninitialized* — the output holds whatever memory
the allocation produced, modelled by the `junk` row oracle. -/
noncomputable def pyNormalizeRows (junk : ℕ → List ℝ) (rows : List (List ℝ)) :
    List (List ℝ) :=
  rows.mapIdx fun i v =>
    if normR v = 0 then junk i else v.map fun x => x / normR v

/-- Lines 160–171: the clipped cosine-similarity matrix of the two embedded
and normalized skill lists (`junkT`/`junkE` model the uninitialized rows of
the two `np.divide` calls). -/
noncomputable def cosSimMatrix (emb : String → List ℝ)
    (junkT junkE : ℕ → List ℝ) (taskSkills empSkills : List String) :
    List (List ℝ) :=
  let T := pyNormalizeRows junkT (taskSkills.map emb)
  let E := pyNormalizeRows junkE (empSkills.map emb)
  T.map fun trow => E.map fun erow => clipR (dotR trow erow)

/-- The scorer of lines 152–178 for one (task, employee) pair: `0` for an
employee with no skills, else the average over the task-skill list of the
best clipped cosine similarity among the employee's skills. -/
noncomputable def matchScoreR (emb : String → List ℝ)
    (junkT junkE : ℕ → List ℝ) (taskSkills empSkills : List String) : ℝ :=
  if empSkills.isEmpty then 0
  else matchScoreOf (cosSimMatrix emb junkT junkE taskSkills empSkills)

/-- Unit-normalization of a vector (the zero vector stays zero, since Lean's
real division by zero is zero). -/
noncomputable def normalizeVec (v : List ℝ) : List ℝ :=
  v.map fun x => x / normR v

/-- Plain cosine similarity of two embeddings, as the spec's scorer uses it. -/
noncomputable def cosineSim (u v : List ℝ) : ℝ :=
  dotR (normalizeVec u) (normalizeVec v)

/-- The scorer value that claim C1 describes, built from the claim's own
words (for refutation/comparison only — the code does not implement it):
over the required skill set `T` (the deduplicated task-skill list), an
exactly-matched skill earns `1`, a skill whose taxonomy relatives
(`parents ∪ children`) meet the candidate set earns `1/2`, a still-unmatched
skill earns its maximum cosine similarity against the candidate skills when
that maximum is at least `1/2`, every other skill earns `0`; the value is
the weight sum divided by `|T|`. -/
noncomputable def claimScoreC1
    (relatives : String → Option (List String) × Option (List String))
    (emb : String → List ℝ) (taskSkills candSkills : List String) : ℝ :=
  let T := taskSkills.dedup
  let w : String → ℝ := fun s =>
    if s ∈ candSkills then 1
    else if (((relatives s).1.getD []) ++ ((relatives s).2.getD [])).any
        (fun r => r ∈ candSkills) then 1 / 2
    else
      let m := listMax (candSkills.map fun e => cosineSim (emb s) (emb e))
      if 1 / 2 ≤ m then m else 0
  (T.map w).sum / (T.length : ℝ)

/-! ## Concrete fixtures used by counterexamples and witnesses -/

/-- Identity set-enumeration oracle (a valid enumeration). -/
def enumId : List String → List String := fun xs => xs

/-- Reversing set-enumeration oracle (a valid enumeration: a permutation). -/
def enumRev : List String → List String := fun xs => xs.reverse

/-- A junk-row oracle (its value is irrelevant when all norms are non-zero). -/
noncomputable def junkNil : ℕ → List ℝ := fun _ => []

/-- Uninitialized-memory oracle whose rows happen to contain `[1, 0]`. -/
noncomputable def junkRow10 : ℕ → List ℝ := fun _ => [1, 0]

/-- Uninitialized-memory oracle whose rows happen to contain `[0, 1]`. -/
noncomputable def junkRow01 : ℕ → List ℝ := fun _ => [0, 1]

/-- Embedding for C1: `"x" ↦ (7/25, 24/25)`, all other skills `↦ (1, 0)`;
all values are unit vectors, so the normalization divides by `1`.  The
cosine similarity of `"a"` and `"x"` is `7/25 < 1/2`. -/
noncomputable def embC1 : String → List ℝ := fun s =>
  if s = "x" then [7 / 25, 24 / 25] else [1, 0]

/-- Degenerate embedding for C10: skill `"a"` gets the zero vector. -/
noncomputable def embZero : String → List ℝ := fun s =>
  if s = "a" then [0, 0] else [1, 0]

/-- The all-ones similarity matrix provider (used by `ℚ`-valued witnesses). -/
def simAllOne (α : Type) [LinearOrderedField α] :
    List String → List String → List (List α) :=
  fun ts es => ts.map fun _ => es.map fun _ => (1 : α)

/-- The constant `3/10` similarity matrix provider (C7: a score in the
interval `[0.2, 0.5)`). -/
def simThreeTenths (α : Type) [LinearOrderedField α] :
    List String → List String → List (List α) :=
  fun ts es => ts.map fun _ => es.map fun _ => (3 / 10 : α)

/-- The all-zero similarity matrix provider (C9: nobody reaches the score
threshold). -/
def simAllZero (α : Type) [LinearOrderedField α] :
    List String → List String → List (List α) :=
  fun ts es => ts.map fun _ => es.map fun _ => (0 : α)

/-- Two-skill task fixture. -/
def taskAB : ProjectTask :=
  { name := "t", skills := ["a", "b"], start_days_from_kickoff := 0,
    duration_days := 1 }

/-- Employee fixture whose prepared skill list is `["a", "b"]` (after
lowercasing `["A", "B"]`). -/
def empAB : EmployeeSkill :=
  { filename := "e", summary := [("c", ["A", "B"])] }

/-- C6 fixture: two skill-less tasks that tie on the start day, listed with
the lexicographically larger name first. -/
def taskTieB : ProjectTask :=
  { name := "b", skills := [], start_days_from_kickoff := 0,
    duration_days := 1 }

/-- C6 fixture: the tying task with the smaller name, listed second. -/
def taskTieA : ProjectTask :=
  { name := "a", skills := [], start_days_from_kickoff := 0,
    duration_days := 1 }

/-- One-skill task fixture. -/
def taskA : ProjectTask :=
  { name := "t", skills := ["a"], start_days_from_kickoff := 0,
    duration_days := 1 }

/-- Employee fixture with the single skill `"x"`. -/
def empX : EmployeeSkill :=
  { filename := "e", summary := [("c", ["x"])] }

/-- C8 fixture: a task whose raw skill list contains the empty label. -/
def taskC8 : ProjectTask :=
  { name := "t", skills := ["Python", ""], start_days_from_kickoff := 0,
    duration_days := 1 }

/-- C8 fixture: an employee holding the non-empty required skill. -/
def empC8 : EmployeeSkill :=
  { filename := "e", summary := [("c", ["python"])] }

/-! ## Theorems: helper lemmas and the settled claims -/

/-- C2 (confirmed): for every schedule and new task window, the availability
check computes the new end as start plus duration and returns `false` exactly
when some busy interval satisfies `new_start < busy_end` and
`new_end > busy_start`; on the empty schedule it returns `true`.  The
embedded function is pure, so it cannot modify the schedule. -/
theorem C2_availability (schedule : List (Int × Int)) (new_start new_duration : Int) :
    (is_employee_available schedule new_start new_duration = false ↔
      ∃ b ∈ schedule, new_start < b.2 ∧ new_start + new_duration > b.1) ∧
    is_employee_available [] new_start new_duration = true := by
  refine ⟨?_, rfl⟩
  simp [is_employee_available, List.all_eq_false]

/-- C6 (counterexample): two tasks tie on start day 0 with the
lexicographically larger name `"b"` listed first; the engine's task order
keeps `"b"` before `"a"` (Python's sort is stable on the start key alone),
and the run visits `"b"` first — refuting the claimed tie-break by smaller
task identifier. -/
theorem C6_counterexample :
    taskTieB.start_days_from_kickoff = taskTieA.start_days_from_kickoff ∧
    taskTieA.name < taskTieB.name ∧
    sortTasks [taskTieB, taskTieA] = [taskTieB, taskTieA] ∧
    (runEngine (α := ℚ) (simAllOne ℚ) enumId 1 [taskTieB, taskTieA] []).unassigned_tasks
      = ["b", "a"] := by
  refine ⟨rfl, by with_unfolding_all decide, by decide, by with_unfolding_all rfl⟩

/-- C6 (amended): the engine visits the tasks of `sortTasks` exactly once
each — a permutation of the input — in ascending order of
`start_days_from_kickoff`; the sort is stable, so any input-ordered pair
already respecting the start-day order (in particular every equal-start
pair) keeps its relative input order. -/
theorem C6_amended_task_order (tasks : List ProjectTask) :
    (sortTasks tasks).Perm tasks ∧
    (sortTasks tasks).Pairwise taskStartLe ∧
    ∀ a b : ProjectTask, List.Sublist [a, b] tasks → taskStartLe a b →
      List.Sublist [a, b] (sortTasks tasks) := by
  refine ⟨List.perm_insertionSort _ _, List.sorted_insertionSort _ _, ?_⟩
  intro a b hsub hle
  exact List.pair_sublist_insertionSort hle hsub

/-- Witness for C6 (amended) at the concrete tie fixture. -/
theorem C6_amended_witness :
    (sortTasks [taskTieB, taskTieA]).Perm [taskTieB, taskTieA] ∧
    taskStartLe taskTieB taskTieA ∧
    List.Sublist [taskTieB, taskTieA] (sortTasks [taskTieB, taskTieA]) :=
  ⟨(C6_amended_task_order [taskTieB, taskTieA]).1, by decide,
   (C6_amended_task_order [taskTieB, taskTieA]).2.2 taskTieB taskTieA
     (List.Sublist.refl _) (by decide)⟩

/-- C7 (amended): the candidate filter passes exactly those candidates
that score at least the hard-coded `MIN_SEMANTIC_SCORE_THRESHOLD`, whose
value is `0.2` (not 0.5), and that are available and within the team cap;
the boundary is inclusive, and every candidate the engine picks satisfies
the score bound. -/
theorem C7_amended_threshold {α : Type} [LinearOrderedField α]
    (schedules : String → List (Int × Int)) (team : List String) (cap : ℕ)
    (ts td : Int) (c : String × α)
    (simOf : List String → List String → List (List α))
    (taskSkills : List String) (st : EngineState α) (c2 : String × α) :
    MIN_SEMANTIC_SCORE_THRESHOLD ℚ = 1 / 5 ∧
    (passesFilters schedules team cap ts td c = true ↔
      (¬ c.2 < MIN_SEMANTIC_SCORE_THRESHOLD α ∧
        is_employee_available (schedules c.1) ts td = true ∧
        (c.1 ∈ team ∨ team.length < cap))) ∧
    (pickCandidate simOf taskSkills cap ts td st = some c2 →
      ¬ c2.2 < MIN_SEMANTIC_SCORE_THRESHOLD α) := by
  have hiff : ∀ (sch : String → List (Int × Int)) (tm : List String)
      (k : ℕ) (s d : Int) (x : String × α),
      passesFilters sch tm k s d x = true ↔
        (¬ x.2 < MIN_SEMANTIC_SCORE_THRESHOLD α ∧
          is_employee_available (sch x.1) s d = true ∧
          (x.1 ∈ tm ∨ tm.length < k)) := by
    intro sch tm k s d x
    simp [passesFilters]
    exact and_assoc
  refine ⟨rfl, hiff _ _ _ _ _ _, ?_⟩
  intro h
  have hp := List.find?_some h
  exact ((hiff _ _ _ _ _ _).mp hp).1

/-- C5 (amended): with the set-iteration order fixed alongside the listed
inputs, the engine is deterministic — equal similarity providers, equal
enumeration oracles, equal caps, equal task lists and equal candidate data
give equal outputs (the embedding is a pure function of exactly these
inputs). -/
theorem C5_amended_determinism {α : Type} [LinearOrderedField α]
    (simOf simOf2 : List String → List String → List (List α))
    (σ σ2 : List String → List String) (cap cap2 : ℕ)
    (tasks tasks2 : List ProjectTask) (data data2 : List EmployeeSkill)
    (hsim : simOf = simOf2) (he : σ = σ2) (hcap : cap = cap2)
    (ht : tasks = tasks2) (hd : data = data2) :
    runEngine simOf σ cap tasks data = runEngine simOf2 σ2 cap2 tasks2 data2 := by
  subst hsim he hcap ht hd
  rfl

/-- C5 (counterexample): two runs on identical task lists, candidate sets,
caps and similarity data but different (both valid) set-enumeration orders —
modelling two processes with different hash seeds — produce different
outputs: the `skills_match` list of the committed assignment comes out in a
different order.  The claimed inputs therefore do not determine the
output. -/
theorem C5_counterexample :
    runEngine (α := ℚ) (simAllOne ℚ) enumId 1 [taskAB] [empAB] ≠
      runEngine (α := ℚ) (simAllOne ℚ) enumRev 1 [taskAB] [empAB] ∧
    (∀ xs : List String, (enumId xs).Perm xs) ∧
    (∀ xs : List String, (enumRev xs).Perm xs) := by
  exact ⟨by with_unfolding_all decide, fun xs => List.Perm.refl xs,
    fun xs => List.reverse_perm xs⟩

/-- Witness for C5 (amended): the two runs with equal inputs and equal
enumeration oracle coincide. -/
theorem C5_amended_witness :
    runEngine (α := ℚ) (simAllOne ℚ) enumId 1 [taskAB] [empAB] =
      runEngine (α := ℚ) (simAllOne ℚ) enumId 1 [taskAB] [empAB] :=
  C5_amended_determinism _ _ _ _ _ _ _ _ _ _ rfl rfl rfl rfl rfl

lemma stepTask_of_empty {α : Type} [LinearOrderedField α]
    (simOf : List String → List String → List (List α))
    (σ : List String → List String) (cap : ℕ)
    (st : EngineState α) (t : ProjectTask) (h : taskSkillsOf t = []) :
    stepTask simOf σ cap st t = { st with unassigned := st.unassigned ++ [t.name] } := by
  simp [stepTask, h]

lemma stepTask_of_none {α : Type} [LinearOrderedField α]
    (simOf : List String → List String → List (List α))
    (σ : List String → List String) (cap : ℕ)
    (st : EngineState α) (t : ProjectTask) (h : ¬ taskSkillsOf t = [])
    (h2 : pickCandidate simOf (taskSkillsOf t) cap t.start_days_from_kickoff
      t.duration_days st = none) :
    stepTask simOf σ cap st t =
      { st with lastSim := (rankedCandidates simOf (taskSkillsOf t) st).2,
                unassigned := st.unassigned ++ [t.name] } := by
  simp [stepTask, h, h2]

lemma stepTask_of_some {α : Type} [LinearOrderedField α]
    (simOf : List String → List String → List (List α))
    (σ : List String → List String) (cap : ℕ)
    (st : EngineState α) (t : ProjectTask) (c : String × α)
    (h : ¬ taskSkillsOf t = [])
    (h2 : pickCandidate simOf (taskSkillsOf t) cap t.start_days_from_kickoff
      t.duration_days st = some c) :
    stepTask simOf σ cap st t =
      commitTask σ t (taskSkillsOf t) t.start_days_from_kickoff t.duration_days
        ((rankedCandidates simOf (taskSkillsOf t) st).2.getD [])
        { st with lastSim := (rankedCandidates simOf (taskSkillsOf t) st).2 } c := by
  simp [stepTask, h, h2]

lemma is_employee_available_iff_forall (sch : List (Int × Int)) (s d : Int) :
    is_employee_available sch s d = true ↔
      ∀ b ∈ sch, ¬ intervalsOverlap (s, s + d) b := by
  simp [is_employee_available, intervalsOverlap, List.all_eq_true]
  constructor
  · intro h a b hm hs
    rcases h a b hm with h1 | h1
    · omega
    · exact h1
  · intro h a b hm
    by_cases hs : s < b
    · exact Or.inr (h a b hm hs)
    · exact Or.inl (by omega)

lemma intervalsOverlap_symm (a b : Int × Int) :
    intervalsOverlap a b ↔ intervalsOverlap b a := by
  unfold intervalsOverlap; exact and_comm

lemma pick_mem_filters {α : Type} [LinearOrderedField α]
    (simOf : List String → List String → List (List α))
    (taskSkills : List String) (cap : ℕ) (s d : Int)
    (st : EngineState α) (c : String × α)
    (h : pickCandidate simOf taskSkills cap s d st = some c) :
    ¬ c.2 < MIN_SEMANTIC_SCORE_THRESHOLD α ∧
    is_employee_available (st.schedules c.1) s d = true ∧
    (c.1 ∈ st.team ∨ st.team.length < cap) := by
  have hp := List.find?_some h
  simpa [passesFilters, and_assoc] using hp

lemma foldl_inv {γ β : Type} {P : γ → Prop} (step : γ → β → γ)
    (hs : ∀ s t, P s → P (step s t)) :
    ∀ (l : List β) (i : γ), P i → P (l.foldl step i) := by
  intro l
  induction l with
  | nil => intro i hi; simpa using hi
  | cons t l ih => intro i hi; exact ih _ (hs i t hi)

lemma scanl_inv {γ β : Type} {P : γ → Prop} (step : γ → β → γ)
    (hs : ∀ s t, P s → P (step s t)) :
    ∀ (l : List β) (i : γ), P i → ∀ s ∈ List.scanl step i l, P s := by
  intro l
  induction l with
  | nil =>
    intro i hi s hm
    simp only [List.scanl] at hm
    rcases List.mem_singleton.mp hm with h
    exact h ▸ hi
  | cons t l ih =>
    intro i hi s hm
    rw [List.scanl_cons] at hm
    rcases List.mem_cons.mp hm with h | h
    · exact h ▸ hi
    · exact ih (step i t) (hs i t hi) s h

lemma commitTask_schedules_self {α : Type} [LinearOrderedField α]
    (σ : List String → List String) (t : ProjectTask)
    (taskSkills : List String) (s d : Int) (M : List (List α))
    (st : EngineState α) (c : String × α) :
    (commitTask σ t taskSkills s d M st c).schedules c.1 =
      st.schedules c.1 ++ [(s, s + d)] := by
  simp [commitTask]

lemma commitTask_schedules_other {α : Type} [LinearOrderedField α]
    (σ : List String → List String) (t : ProjectTask)
    (taskSkills : List String) (s d : Int) (M : List (List α))
    (st : EngineState α) (c : String × α) (id : String) (hid : id ≠ c.1) :
    (commitTask σ t taskSkills s d M st c).schedules id = st.schedules id := by
  simp [commitTask, hid]

lemma commitTask_assignments_self {α : Type} [LinearOrderedField α]
    (σ : List String → List String) (t : ProjectTask)
    (taskSkills : List String) (s d : Int) (M : List (List α))
    (st : EngineState α) (c : String × α) :
    (commitTask σ t taskSkills s d M st c).assignments c.1 =
      st.assignments c.1 ++ [commitAssignment σ t taskSkills s d M st c] := by
  simp [commitTask]

lemma commitTask_assignments_other {α : Type} [LinearOrderedField α]
    (σ : List String → List String) (t : ProjectTask)
    (taskSkills : List String) (s d : Int) (M : List (List α))
    (st : EngineState α) (c : String × α) (id : String) (hid : id ≠ c.1) :
    (commitTask σ t taskSkills s d M st c).assignments id = st.assignments id := by
  simp [commitTask, hid]

lemma commitTask_team {α : Type} [LinearOrderedField α]
    (σ : List String → List String) (t : ProjectTask)
    (taskSkills : List String) (s d : Int) (M : List (List α))
    (st : EngineState α) (c : String × α) :
    (commitTask σ t taskSkills s d M st c).team = addTeamMember st.team c.1 := rfl

lemma schedInv_step {α : Type} [LinearOrderedField α]
    (simOf : List String → List String → List (List α))
    (σ : List String → List String) (cap : ℕ)
    (st : EngineState α) (t : ProjectTask) (hs : SchedInv st) :
    SchedInv (stepTask simOf σ cap st t) := by
  by_cases he : taskSkillsOf t = []
  · rw [stepTask_of_empty _ _ _ _ _ he]; exact hs
  · cases h2 : pickCandidate simOf (taskSkillsOf t) cap
      t.start_days_from_kickoff t.duration_days st with
    | none => rw [stepTask_of_none _ _ _ _ _ he h2]; exact hs
    | some c =>
      rw [stepTask_of_some _ _ _ _ _ _ he h2]
      have hav := (pick_mem_filters _ _ _ _ _ _ _ h2).2.1
      rw [is_employee_available_iff_forall] at hav
      intro id
      by_cases hid : id = c.1
      · subst hid
        rw [commitTask_schedules_self, commitTask_assignments_self]
        constructor
        · rw [List.pairwise_append]
          refine ⟨(hs c.1).1, List.pairwise_singleton _ _, ?_⟩
          intro a ha b hb
          rcases List.mem_singleton.mp hb with rfl
          exact fun hov => hav a ha ((intervalsOverlap_symm _ _).mp hov)
        · rw [List.map_append, ← (hs c.1).2]
          rfl
      · rw [commitTask_schedules_other _ _ _ _ _ _ _ _ id hid,
          commitTask_assignments_other _ _ _ _ _ _ _ _ id hid]
        exact hs id

lemma addTeamMember_mem_self (team : List String) (id : String) :
    id ∈ addTeamMember team id := by
  unfold addTeamMember
  split
  · assumption
  · exact List.mem_append_right _ (List.mem_singleton.mpr rfl)

lemma addTeamMember_mem_mono (team : List String) (id x : String)
    (hx : x ∈ team) : x ∈ addTeamMember team id := by
  unfold addTeamMember
  split
  · exact hx
  · exact List.mem_append_left _ hx

lemma teamInv_step {α : Type} [LinearOrderedField α]
    (simOf : List String → List String → List (List α))
    (σ : List String → List String) (cap : ℕ)
    (st : EngineState α) (t : ProjectTask) (hs : TeamInv cap st) :
    TeamInv cap (stepTask simOf σ cap st t) := by
  by_cases he : taskSkillsOf t = []
  · rw [stepTask_of_empty _ _ _ _ _ he]; exact hs
  · cases h2 : pickCandidate simOf (taskSkillsOf t) cap
      t.start_days_from_kickoff t.duration_days st with
    | none => rw [stepTask_of_none _ _ _ _ _ he h2]; exact hs
    | some c =>
      rw [stepTask_of_some _ _ _ _ _ _ he h2]
      have hcapf := (pick_mem_filters _ _ _ _ _ _ _ h2).2.2
      obtain ⟨hnd, hlen, hassign⟩ := hs
      refine ⟨?_, ?_, ?_⟩
      · rw [commitTask_team]
        unfold addTeamMember
        split
        · exact hnd
        · rw [List.nodup_append]
          exact ⟨hnd, List.nodup_singleton _, by
            intro x hx hx1
            rcases List.mem_singleton.mp hx1 with rfl
            exact absurd hx (by assumption)⟩
      · rw [commitTask_team]
        unfold addTeamMember
        split
        · exact hlen
        · rw [List.length_append, List.length_singleton]
          show st.team.length + 1 ≤ cap
          rcases hcapf with hmem | hlt
          · exact absurd hmem (by assumption)
          · omega
      · intro id hne
        rw [commitTask_team]
        by_cases hid : id = c.1
        · subst hid; exact addTeamMember_mem_self _ _
        · rw [commitTask_assignments_other _ _ _ _ _ _ _ _ id hid] at hne
          exact addTeamMember_mem_mono _ _ _ (hassign id hne)

lemma mem_scanl_self {γ β : Type} (f : γ → β → γ) (i : γ) (l : List β) :
    i ∈ List.scanl f i l := by
  cases l <;> simp [List.scanl]

/-- C3 (confirmed): at every point during a run (every state in
`runStates`) no two intervals in any candidate's schedule overlap as
half-open intervals, and in the final output every team member's assignment
intervals are pairwise non-overlapping: every commit is guarded by
`is_employee_available`. -/
theorem C3_schedule_nonoverlap {α : Type} [LinearOrderedField α]
    (simOf : List String → List String → List (List α))
    (σ : List String → List String) (cap : ℕ)
    (tasks : List ProjectTask) (data : List EmployeeSkill) :
    (∀ st ∈ runStates simOf σ cap tasks data, ∀ id,
      ((st.schedules id).Pairwise fun a b => ¬ intervalsOverlap a b)) ∧
    ∀ m ∈ (runEngine simOf σ cap tasks data).team,
      ((m.assignments.map fun a => (a.start_day, a.end_day)).Pairwise
        fun a b => ¬ intervalsOverlap a b) := by
  have hinit : SchedInv (initState α σ data) := fun id => ⟨List.Pairwise.nil, rfl⟩
  have hstep : ∀ s t, SchedInv s → SchedInv (stepTask simOf σ cap s t) :=
    fun s t => schedInv_step simOf σ cap s t
  constructor
  · intro st hm id
    exact (scanl_inv _ hstep _ _ hinit st hm id).1
  · intro m hm
    have hfin : SchedInv (finalState simOf σ cap tasks data) :=
      foldl_inv _ hstep _ _ hinit
    obtain ⟨p, hp, hsome⟩ := List.mem_filterMap.mp hm
    by_cases hne : ((finalState simOf σ cap tasks data).assignments p.1).isEmpty
    · rw [if_pos hne] at hsome; exact absurd hsome (by simp)
    · rw [if_neg hne] at hsome
      have hm2 := Option.some.inj hsome
      rw [← hm2]
      dsimp only
      rw [← (hfin p.1).2]
      exact (hfin p.1).1

/-- Witness for C3 at a concrete run. -/
theorem C3_witness :
    initState ℚ enumId [empAB] ∈ runStates (simAllOne ℚ) enumId 1 [taskAB] [empAB] ∧
    (((initState ℚ enumId [empAB]).schedules "e").Pairwise
      fun a b => ¬ intervalsOverlap a b) ∧
    ∀ m ∈ (runEngine (α := ℚ) (simAllOne ℚ) enumId 1 [taskAB] [empAB]).team,
      ((m.assignments.map fun a => (a.start_day, a.end_day)).Pairwise
        fun a b => ¬ intervalsOverlap a b) := by
  have h := C3_schedule_nonoverlap (α := ℚ) (simAllOne ℚ) enumId 1 [taskAB] [empAB]
  have hmem : initState ℚ enumId [empAB] ∈
      runStates (simAllOne ℚ) enumId 1 [taskAB] [empAB] := mem_scanl_self _ _ _
  exact ⟨hmem, h.1 _ hmem "e", h.2⟩

/-- C4 (confirmed): in every state of every run the committed team list is
duplicate-free and its size never exceeds the cap (a new candidate is only
committed while the team is strictly below the cap), and the set of distinct
candidates in the final output team has at most `cap` members. -/
theorem C4_team_cap {α : Type} [LinearOrderedField α]
    (simOf : List String → List String → List (List α))
    (σ : List String → List String) (cap : ℕ)
    (tasks : List ProjectTask) (data : List EmployeeSkill) :
    (∀ st ∈ runStates simOf σ cap tasks data,
      st.team.Nodup ∧ st.team.length ≤ cap) ∧
    ((runEngine simOf σ cap tasks data).team.map
      TeamMember.employee_filename).toFinset.card ≤ cap := by
  have hinit : TeamInv cap (initState α σ data) :=
    ⟨List.nodup_nil, Nat.zero_le _, fun id h => absurd rfl h⟩
  have hstep : ∀ s t, TeamInv cap s → TeamInv cap (stepTask simOf σ cap s t) :=
    fun s t => teamInv_step simOf σ cap s t
  constructor
  · intro st hm
    have h := scanl_inv _ hstep _ _ hinit st hm
    exact ⟨h.1, h.2.1⟩
  · have hfin : TeamInv cap (finalState simOf σ cap tasks data) :=
      foldl_inv _ hstep _ _ hinit
    have hsub : ((runEngine simOf σ cap tasks data).team.map
        TeamMember.employee_filename).toFinset ⊆
        (finalState simOf σ cap tasks data).team.toFinset := by
      intro x hx
      rw [List.mem_toFinset] at hx
      rw [List.mem_toFinset]
      obtain ⟨m, hm, hxm⟩ := List.mem_map.mp hx
      obtain ⟨p, hp, hsome⟩ := List.mem_filterMap.mp hm
      by_cases hne : ((finalState simOf σ cap tasks data).assignments p.1).isEmpty
      · rw [if_pos hne] at hsome; exact absurd hsome (by simp)
      · rw [if_neg hne] at hsome
        have hm2 := Option.some.inj hsome
        have hxp : x = p.1 := by rw [← hxm, ← hm2]
        rw [hxp]
        refine hfin.2.2 p.1 ?_
        intro hcon
        rw [hcon] at hne
        simp at hne
    calc ((runEngine simOf σ cap tasks data).team.map
            TeamMember.employee_filename).toFinset.card
        ≤ (finalState simOf σ cap tasks data).team.toFinset.card :=
          Finset.card_le_card hsub
      _ ≤ (finalState simOf σ cap tasks data).team.length :=
          List.toFinset_card_le _
      _ ≤ cap := hfin.2.1

/-- Witness for C4 at a concrete run. -/
theorem C4_witness :
    initState ℚ enumId [empAB] ∈ runStates (simAllOne ℚ) enumId 1 [taskAB] [empAB] ∧
    (initState ℚ enumId [empAB]).team.Nodup ∧
    (initState ℚ enumId [empAB]).team.length ≤ 1 ∧
    ((runEngine (α := ℚ) (simAllOne ℚ) enumId 1 [taskAB] [empAB]).team.map
      TeamMember.employee_filename).toFinset.card ≤ 1 := by
  have h := C4_team_cap (α := ℚ) (simAllOne ℚ) enumId 1 [taskAB] [empAB]
  have hmem : initState ℚ enumId [empAB] ∈
      runStates (simAllOne ℚ) enumId 1 [taskAB] [empAB] := mem_scanl_self _ _ _
  exact ⟨hmem, (h.1 _ hmem).1, (h.1 _ hmem).2, h.2⟩

/-- C9 (confirmed): a task with no (non-empty) required skills, or for
which no candidate survives the score, availability and team-cap filters,
is appended to the unassigned list while schedules, assignments and team
are left untouched, and the (total) run records the name of every
empty-skill task in the final `unassigned_tasks`; no error path exists in
the embedded engine. -/
theorem C9_unassignable {α : Type} [LinearOrderedField α]
    (simOf : List String → List String → List (List α))
    (σ : List String → List String) (cap : ℕ) :
    (∀ (st : EngineState α) (t : ProjectTask),
      (taskSkillsOf t = [] ∨
        pickCandidate simOf (taskSkillsOf t) cap t.start_days_from_kickoff
          t.duration_days st = none) →
      (stepTask simOf σ cap st t).unassigned = st.unassigned ++ [t.name] ∧
      (stepTask simOf σ cap st t).schedules = st.schedules ∧
      (stepTask simOf σ cap st t).assignments = st.assignments ∧
      (stepTask simOf σ cap st t).team = st.team) ∧
    ∀ (tasks : List ProjectTask) (data : List EmployeeSkill) (t : ProjectTask),
      t ∈ tasks → taskSkillsOf t = [] →
      t.name ∈ (runEngine simOf σ cap tasks data).unassigned_tasks := by
  have hstep : ∀ (st : EngineState α) (t : ProjectTask),
      (taskSkillsOf t = [] ∨
        pickCandidate simOf (taskSkillsOf t) cap t.start_days_from_kickoff
          t.duration_days st = none) →
      (stepTask simOf σ cap st t).unassigned = st.unassigned ++ [t.name] ∧
      (stepTask simOf σ cap st t).schedules = st.schedules ∧
      (stepTask simOf σ cap st t).assignments = st.assignments ∧
      (stepTask simOf σ cap st t).team = st.team := by
    intro st t h
    by_cases he : taskSkillsOf t = []
    · rw [stepTask_of_empty _ _ _ _ _ he]; exact ⟨rfl, rfl, rfl, rfl⟩
    · rcases h with h | h
      · exact absurd h he
      · rw [stepTask_of_none _ _ _ _ _ he h]; exact ⟨rfl, rfl, rfl, rfl⟩
  refine ⟨hstep, ?_⟩
  have hmono : ∀ (l : List ProjectTask) (st : EngineState α) (x : String),
      x ∈ st.unassigned → x ∈ (l.foldl (stepTask simOf σ cap) st).unassigned := by
    intro l
    induction l with
    | nil => intro st x hx; simpa using hx
    | cons t l ih =>
      intro st x hx
      refine ih _ _ ?_
      by_cases he : taskSkillsOf t = []
      · rw [stepTask_of_empty _ _ _ _ _ he]; exact List.mem_append_left _ hx
      · cases h2 : pickCandidate simOf (taskSkillsOf t) cap
          t.start_days_from_kickoff t.duration_days st with
        | none =>
          rw [stepTask_of_none _ _ _ _ _ he h2]
          exact List.mem_append_left _ hx
        | some c =>
          rw [stepTask_of_some _ _ _ _ _ _ he h2]
          exact hx
  have hrun : ∀ (l : List ProjectTask) (st : EngineState α) (t : ProjectTask),
      t ∈ l → taskSkillsOf t = [] →
      t.name ∈ (l.foldl (stepTask simOf σ cap) st).unassigned := by
    intro l
    induction l with
    | nil => intro st t hm _; exact absurd hm (List.not_mem_nil _)
    | cons a l ih =>
      intro st t hm he
      rcases List.mem_cons.mp hm with rfl | hm2
      · refine hmono l _ _ ?_
        rw [stepTask_of_empty _ _ _ _ _ he]
        exact List.mem_append_right _ (List.mem_singleton.mpr rfl)
      · exact ih _ _ hm2 he
  intro tasks data t hm he
  have hms : t ∈ sortTasks tasks := (List.mem_insertionSort taskStartLe).mpr hm
  exact hrun (sortTasks tasks) (initState α σ data) t hms he

/-- Witness for C9: a skill-less task and a no-survivor task both land in
the unassigned list of concrete runs. -/
theorem C9_witness :
    taskSkillsOf taskTieB = [] ∧
    (stepTask (simAllOne ℚ) enumId 1 (initState ℚ enumId []) taskTieB).unassigned
      = (initState ℚ enumId ([] : List EmployeeSkill)).unassigned ++ ["b"] ∧
    pickCandidate (simAllZero ℚ) (taskSkillsOf taskA) 1
      taskA.start_days_from_kickoff taskA.duration_days
      (initState ℚ enumId [empX]) = none ∧
    (stepTask (simAllZero ℚ) enumId 1 (initState ℚ enumId [empX]) taskA).unassigned
      = (initState ℚ enumId [empX]).unassigned ++ ["t"] ∧
    "b" ∈ (runEngine (α := ℚ) (simAllOne ℚ) enumId 1 [taskTieB] []).unassigned_tasks := by
  have h1 := (C9_unassignable (α := ℚ) (simAllOne ℚ) enumId 1).1
    (initState ℚ enumId []) taskTieB (Or.inl rfl)
  have hpick : pickCandidate (simAllZero ℚ) (taskSkillsOf taskA) 1
      taskA.start_days_from_kickoff taskA.duration_days
      (initState ℚ enumId [empX]) = none := by with_unfolding_all rfl
  have h2 := (C9_unassignable (α := ℚ) (simAllZero ℚ) enumId 1).1
    (initState ℚ enumId [empX]) taskA (Or.inr hpick)
  exact ⟨rfl, h1.1, hpick, h2.1,
    (C9_unassignable (α := ℚ) (simAllOne ℚ) enumId 1).2 [taskTieB] [] taskTieB
      (List.mem_singleton.mpr rfl) rfl⟩

lemma partition_general (σ : List String → List String)
    (hσ : ∀ xs, (σ xs).Perm xs) (taskSet direct semList : List String)
    (hd : ∀ x ∈ direct, x ∈ taskSet) (hs : ∀ x ∈ semList, x ∈ taskSet) :
    (σ (direct ++ semList)).toFinset ∪
      (σ (taskSet.filter fun s => s ∉ σ (direct ++ semList))).toFinset =
      taskSet.toFinset ∧
    (σ (direct ++ semList)).toFinset ∩
      (σ (taskSet.filter fun s => s ∉ σ (direct ++ semList))).toFinset = ∅ := by
  have hL : ∀ x, x ∈ σ (direct ++ semList) ↔ x ∈ direct ++ semList :=
    fun x => (hσ _).mem_iff
  have hM : ∀ x, x ∈ σ (taskSet.filter fun s => s ∉ σ (direct ++ semList)) ↔
      x ∈ taskSet ∧ x ∉ σ (direct ++ semList) := by
    intro x
    rw [(hσ _).mem_iff, List.mem_filter]
    simp
  constructor
  · ext x
    simp only [Finset.mem_union, List.mem_toFinset]
    constructor
    · intro h
      rcases h with h | h
      · rcases List.mem_append.mp ((hL x).mp h) with h2 | h2
        · exact hd x h2
        · exact hs x h2
      · exact ((hM x).mp h).1
    · intro h
      by_cases hx : x ∈ σ (direct ++ semList)
      · exact Or.inl hx
      · exact Or.inr ((hM x).mpr ⟨h, hx⟩)
  · rw [Finset.eq_empty_iff_forall_not_mem]
    intro x hx
    rw [Finset.mem_inter, List.mem_toFinset, List.mem_toFinset] at hx
    exact ((hM x).mp hx.2).2 hx.1

lemma commitAssignment_partition {α : Type} [LinearOrderedField α]
    (σ : List String → List String) (hσ : ∀ xs, (σ xs).Perm xs)
    (t : ProjectTask) (s d : Int) (M : List (List α))
    (st : EngineState α) (c : String × α) :
    AssignPartition (commitAssignment σ t (taskSkillsOf t) s d M st c) t := by
  refine ⟨rfl, ?_⟩
  have hbase := partition_general σ hσ ((taskSkillsOf t).dedup)
    (((taskSkillsOf t).dedup).filter fun s =>
      s ∈ ((st.empList.find? fun p => p.1 = c.1).map Prod.snd).getD [])
    (if (σ (((taskSkillsOf t).dedup).filter fun s =>
          s ∉ ((taskSkillsOf t).dedup).filter fun s2 =>
            s2 ∈ ((st.empList.find? fun p => p.1 = c.1).map Prod.snd).getD []) ≠ [] ∧
        ((st.empList.find? fun p => p.1 = c.1).map Prod.snd).getD [] ≠ []) then
      (σ (((taskSkillsOf t).dedup).filter fun s =>
          s ∉ ((taskSkillsOf t).dedup).filter fun s2 =>
            s2 ∈ ((st.empList.find? fun p => p.1 = c.1).map Prod.snd).getD [])).filter
        fun s =>
          decide (SKILL_SIMILARITY_THRESHOLD α ≤
            listMax (M.getD ((taskSkillsOf t).indexOf s) []))
    else [])
    (fun x hx => (List.mem_filter.mp hx).1) ?_
  · have hded : ((taskSkillsOf t).dedup).toFinset = (taskSkillsOf t).toFinset := by
      ext x; simp [List.mem_dedup]
    rw [hded] at hbase
    exact hbase
  · intro x hx
    by_cases hc : (σ (((taskSkillsOf t).dedup).filter fun s =>
          s ∉ ((taskSkillsOf t).dedup).filter fun s2 =>
            s2 ∈ ((st.empList.find? fun p => p.1 = c.1).map Prod.snd).getD []) ≠ [] ∧
        ((st.empList.find? fun p => p.1 = c.1).map Prod.snd).getD [] ≠ [])
    · rw [if_pos hc] at hx
      have hx2 := (List.mem_filter.mp hx).1
      have hx3 := (hσ _).mem_iff.mp hx2
      exact (List.mem_filter.mp hx3).1
    · rw [if_neg hc] at hx
      exact absurd hx (List.not_mem_nil _)

lemma assignInv_step {α : Type} [LinearOrderedField α]
    (simOf : List String → List String → List (List α))
    (σ : List String → List String) (cap : ℕ) (tasks : List ProjectTask)
    (hσ : ∀ xs, (σ xs).Perm xs)
    (st : EngineState α) (t : ProjectTask) (ht : t ∈ tasks)
    (hinv : ∀ id, ∀ a ∈ st.assignments id, ∃ u ∈ tasks, AssignPartition a u) :
    ∀ id, ∀ a ∈ (stepTask simOf σ cap st t).assignments id,
      ∃ u ∈ tasks, AssignPartition a u := by
  by_cases he : taskSkillsOf t = []
  · rw [stepTask_of_empty _ _ _ _ _ he]; exact hinv
  · cases h2 : pickCandidate simOf (taskSkillsOf t) cap
      t.start_days_from_kickoff t.duration_days st with
    | none => rw [stepTask_of_none _ _ _ _ _ he h2]; exact hinv
    | some c =>
      rw [stepTask_of_some _ _ _ _ _ _ he h2]
      intro id a ha
      by_cases hid : id = c.1
      · subst hid
        rw [commitTask_assignments_self] at ha
        rcases List.mem_append.mp ha with h | h
        · exact hinv _ _ h
        · rcases List.mem_singleton.mp h with rfl
          exact ⟨t, ht, commitAssignment_partition σ hσ t _ _ _ _ _⟩
      · rw [commitTask_assignments_other _ _ _ _ _ _ _ _ id hid] at ha
        exact hinv _ _ ha

lemma assignInv_fold {α : Type} [LinearOrderedField α]
    (simOf : List String → List String → List (List α))
    (σ : List String → List String) (cap : ℕ) (tasks : List ProjectTask)
    (hσ : ∀ xs, (σ xs).Perm xs) :
    ∀ (l : List ProjectTask), (∀ x ∈ l, x ∈ tasks) →
    ∀ (st : EngineState α),
      (∀ id, ∀ a ∈ st.assignments id, ∃ u ∈ tasks, AssignPartition a u) →
      ∀ id, ∀ a ∈ (l.foldl (stepTask simOf σ cap) st).assignments id,
        ∃ u ∈ tasks, AssignPartition a u := by
  intro l
  induction l with
  | nil => intro _ st hinv; simpa using hinv
  | cons t l ih =>
    intro hsub st hinv
    exact ih (fun x hx => hsub x (List.mem_cons_of_mem _ hx)) _
      (assignInv_step simOf σ cap tasks hσ st t (hsub t (List.mem_cons_self _ _)) hinv)

/-- C8 (amended): every assignment in the output names a task of the run
whose prepared required-skill set `taskSkillsOf` (lower-cased, deduplicated,
empty labels dropped) is exactly the disjoint union of the assignment's
matched and missing skill sets, for every valid set-enumeration oracle. -/
theorem C8_amended_partition {α : Type} [LinearOrderedField α]
    (simOf : List String → List String → List (List α))
    (σ : List String → List String) (cap : ℕ)
    (tasks : List ProjectTask) (data : List EmployeeSkill)
    (hσ : ∀ xs, (σ xs).Perm xs) :
    ∀ m ∈ (runEngine simOf σ cap tasks data).team, ∀ a ∈ m.assignments,
      ∃ t ∈ tasks, AssignPartition a t := by
  have hfin := assignInv_fold simOf σ cap tasks hσ (sortTasks tasks)
    (fun x hx => (List.mem_insertionSort taskStartLe).mp hx)
    (initState α σ data)
    (fun id a ha => absurd ha (List.not_mem_nil _))
  intro m hm a ha
  obtain ⟨p, hp, hsome⟩ := List.mem_filterMap.mp hm
  by_cases hne : ((finalState simOf σ cap tasks data).assignments p.1).isEmpty
  · rw [if_pos hne] at hsome; exact absurd hsome (by simp)
  · rw [if_neg hne] at hsome
    have hm2 := Option.some.inj hsome
    rw [← hm2] at ha
    exact hfin p.1 a ha

/-- C8 (counterexample): a task whose raw skill list contains the empty
label `""` yields an assignment whose matched and missing sets unite to
`{"python"}`, while the claim's required set — lower-cased and deduplicated
only — is `{"python", ""}`; the code additionally drops empty labels, so
the claimed equality fails. -/
theorem C8_counterexample :
    (runEngine (α := ℚ) (simAllOne ℚ) enumId 1 [taskC8] [empC8]).team =
      [{ employee_filename := "e",
         assignments := [{ task_name := "t", start_day := 0, end_day := 1,
                           skills_match := ["python"], missing_skills := [],
                           semantic_match_score := 1 }] }] ∧
    (["python"] : List String).toFinset ∪ ([] : List String).toFinset ≠
      ((taskC8.skills.map strLower).dedup).toFinset := by
  exact ⟨by with_unfolding_all rfl, by with_unfolding_all decide⟩

/-- Witness for C8 (amended) with the identity enumeration oracle. -/
theorem C8_amended_witness :
    (∀ xs : List String, (enumId xs).Perm xs) ∧
    ∀ m ∈ (runEngine (α := ℚ) (simAllOne ℚ) enumId 1 [taskC8] [empC8]).team,
      ∀ a ∈ m.assignments, ∃ t ∈ [taskC8], AssignPartition a t :=
  ⟨fun xs => List.Perm.refl xs,
   C8_amended_partition (simAllOne ℚ) enumId 1 [taskC8] [empC8]
     (fun xs => List.Perm.refl xs)⟩

/-- C7 (counterexample): the hard-coded threshold is 0.2, not the claimed
default 0.5 — a candidate scoring 3/10 (strictly below 0.5) is not skipped
but committed, with the task assigned at score 3/10. -/
theorem C7_counterexample :
    (3 / 10 : ℚ) < 1 / 2 ∧
    MIN_SEMANTIC_SCORE_THRESHOLD ℚ ≠ 1 / 2 ∧
    (runEngine (α := ℚ) (simThreeTenths ℚ) enumId 1 [taskA] [empX]).team =
      [{ employee_filename := "e",
         assignments := [{ task_name := "t", start_day := 0, end_day := 1,
                           skills_match := [], missing_skills := ["a"],
                           semantic_match_score := 3 / 10 }] }] := by
  refine ⟨by norm_num, ?_, by with_unfolding_all rfl⟩
  rw [MIN_SEMANTIC_SCORE_THRESHOLD]
  norm_num

/-- Witness for C7 (amended): a picked candidate satisfies the score
bound, and a candidate scoring exactly the threshold passes the filter. -/
theorem C7_amended_witness :
    pickCandidate (simAllOne ℚ) ["a"] 1 0 1 (initState ℚ enumId [empX]) =
      some ("e", 1) ∧
    ¬ (1 : ℚ) < MIN_SEMANTIC_SCORE_THRESHOLD ℚ ∧
    passesFilters (fun _ => ([] : List (Int × Int))) [] 1 0 1
      ("e", (1 / 5 : ℚ)) = true := by
  have hpick : pickCandidate (simAllOne ℚ) ["a"] 1 0 1 (initState ℚ enumId [empX]) =
      some ("e", 1) := by with_unfolding_all rfl
  refine ⟨hpick, ?_, ?_⟩
  · exact (C7_amended_threshold (fun _ => ([] : List (Int × Int))) [] 1 0 1
      ("e", (1 : ℚ)) (simAllOne ℚ) ["a"] (initState ℚ enumId [empX])
      ("e", 1)).2.2 hpick
  · exact (C7_amended_threshold (fun _ => ([] : List (Int × Int))) [] 1 0 1
      ("e", (1 / 5 : ℚ)) (simAllOne ℚ) ["a"] (initState ℚ enumId [empX])
      ("e", 1)).2.1.mpr
      ⟨by rw [MIN_SEMANTIC_SCORE_THRESHOLD]; exact lt_irrefl _, rfl, Or.inr (by norm_num)⟩

lemma dotR_11 : dotR [(1:ℝ), 0] [(1:ℝ), 0] = 1 := by simp [dotR]

lemma dotR_xx : dotR [(7/25:ℝ), 24/25] [(7/25:ℝ), 24/25] = 1 := by
  simp [dotR]; norm_num

lemma dotR_1x : dotR [(1:ℝ), 0] [(7/25:ℝ), 24/25] = 7/25 := by simp [dotR]

lemma normR_10 : normR [(1:ℝ), 0] = 1 := by
  rw [normR, dotR_11, Real.sqrt_one]

lemma normR_x : normR [(7/25:ℝ), 24/25] = 1 := by
  rw [normR, dotR_xx, Real.sqrt_one]

lemma embC1_a : embC1 "a" = [(1:ℝ), 0] := if_neg (by decide)

lemma embC1_x : embC1 "x" = [(7/25:ℝ), 24/25] := if_pos rfl

lemma pyNorm_10 : pyNormalizeRows junkNil [[(1:ℝ), 0]] = [[(1:ℝ), 0]] := by
  simp [pyNormalizeRows, normR_10]

lemma pyNorm_x : pyNormalizeRows junkNil [[(7/25:ℝ), 24/25]] = [[(7/25:ℝ), 24/25]] := by
  simp [pyNormalizeRows, normR_x]

lemma cosM_C1 : cosSimMatrix embC1 junkNil junkNil ["a"] ["x"] = [[(7/25:ℝ)]] := by
  simp only [cosSimMatrix, List.map_cons, List.map_nil, embC1_a, embC1_x,
    pyNorm_10, pyNorm_x, dotR_1x, clipR]
  norm_num

lemma matchScoreR_C1 : matchScoreR embC1 junkNil junkNil ["a"] ["x"] = 7/25 := by
  rw [matchScoreR]
  simp [cosM_C1, matchScoreOf, listMean, listMax]

set_option maxRecDepth 8000 in
lemma relatives_a : get_skill_relatives "a" = (none, none) := by decide

lemma cosSim_ax : cosineSim (embC1 "a") (embC1 "x") = 7/25 := by
  rw [embC1_a, embC1_x, cosineSim, normalizeVec, normalizeVec, normR_10, normR_x]
  simpa using dotR_1x

lemma claimScore_C1 : claimScoreC1 get_skill_relatives embC1 ["a"] ["x"] = 0 := by
  simp only [claimScoreC1, List.dedup_cons_of_not_mem (List.not_mem_nil "a"),
    List.dedup_nil, List.map_cons, List.map_nil, relatives_a, cosSim_ax]
  simp [listMax]
  norm_num

/-- C1 (counterexample): with unit embeddings giving `"a"` and `"x"`
cosine similarity 7/25 < 1/2 and no taxonomy relation between them, the
code's scorer returns 7/25 while the claimed formula (exact match 1.0,
taxonomy 0.5, cosine only when at least 0.5, else 0) returns 0. -/
theorem C1_counterexample :
    matchScoreR embC1 junkNil junkNil ["a"] ["x"] = 7 / 25 ∧
    claimScoreC1 get_skill_relatives embC1 ["a"] ["x"] = 0 ∧
    (7 / 25 : ℝ) ≠ 0 :=
  ⟨matchScoreR_C1, claimScore_C1, by norm_num⟩

lemma pyNormalizeRows_cons (junk : ℕ → List ℝ) (v : List ℝ) (rows : List (List ℝ)) :
    pyNormalizeRows junk (v :: rows) =
      (if normR v = 0 then junk 0 else v.map fun x => x / normR v) ::
        pyNormalizeRows (fun i => junk (i + 1)) rows := by
  simp [pyNormalizeRows, List.mapIdx_cons]

lemma pyNormalizeRows_of_nonzero (emb : String → List ℝ) :
    ∀ (l : List String) (junk : ℕ → List ℝ), (∀ s ∈ l, normR (emb s) ≠ 0) →
      pyNormalizeRows junk (l.map emb) = l.map fun s => normalizeVec (emb s) := by
  intro l
  induction l with
  | nil => intro junk _; simp [pyNormalizeRows]
  | cons a l ih =>
    intro junk h
    rw [List.map_cons, pyNormalizeRows_cons,
      if_neg (h a (List.mem_cons_self _ _)),
      ih _ (fun s hs => h s (List.mem_cons_of_mem _ hs)), List.map_cons]
    rfl

/-- C1 (amended): for a non-empty candidate skill list and embeddings of
non-zero norm, the scorer's value is the sum over the task-skill list
(duplicates kept) of the maximum clipped cosine similarity against the
candidate's skills, divided by the length of that list — there is no
taxonomy pass and no similarity floor; exact matches earn 1.0 only through
the cosine of identical embeddings. -/
theorem C1_amended_scorer_value (emb : String → List ℝ)
    (junkT junkE : ℕ → List ℝ) (ts es : List String) (hes : es ≠ [])
    (hts : ∀ s ∈ ts, normR (emb s) ≠ 0) (hesn : ∀ s ∈ es, normR (emb s) ≠ 0) :
    matchScoreR emb junkT junkE ts es =
      (ts.map fun s =>
        listMax (es.map fun e => clipR (cosineSim (emb s) (emb e)))).sum /
      (ts.length : ℝ) := by
  rw [matchScoreR, if_neg (by simpa using hes)]
  simp only [cosSimMatrix, pyNormalizeRows_of_nonzero emb ts junkT hts,
    pyNormalizeRows_of_nonzero emb es junkE hesn]
  simp only [matchScoreOf, listMean, List.map_map, List.length_map]
  rfl

/-- Witness for C1 (amended) at the concrete unit-vector embedding. -/
theorem C1_amended_witness :
    (["x"] : List String) ≠ [] ∧
    (∀ s ∈ (["a"] : List String), normR (embC1 s) ≠ 0) ∧
    (∀ s ∈ (["x"] : List String), normR (embC1 s) ≠ 0) ∧
    matchScoreR embC1 junkNil junkNil ["a"] ["x"] =
      ((["a"] : List String).map fun s =>
        listMax ((["x"] : List String).map fun e =>
          clipR (cosineSim (embC1 s) (embC1 e)))).sum /
      (((["a"] : List String).length : ℕ) : ℝ) := by
  have h1 : ∀ s ∈ (["a"] : List String), normR (embC1 s) ≠ 0 := by
    intro s hs
    rcases List.mem_singleton.mp hs with rfl
    rw [embC1_a, normR_10]
    exact one_ne_zero
  have h2 : ∀ s ∈ (["x"] : List String), normR (embC1 s) ≠ 0 := by
    intro s hs
    rcases List.mem_singleton.mp hs with rfl
    rw [embC1_x, normR_x]
    exact one_ne_zero
  exact ⟨by simp, h1, h2,
    C1_amended_scorer_value embC1 junkNil junkNil ["a"] ["x"] (by simp) h1 h2⟩

lemma embZero_a : embZero "a" = [(0:ℝ), 0] := if_pos rfl

lemma embZero_x : embZero "x" = [(1:ℝ), 0] := if_neg (by decide)

lemma normR_00 : normR [(0:ℝ), 0] = 0 := by
  have hd : dotR [(0:ℝ), 0] [(0:ℝ), 0] = 0 := by simp [dotR]
  rw [normR, hd, Real.sqrt_zero]

/-- C10 (code bug): a zero-norm embedding makes the normalization leave
the row uninitialized (`np.divide` with `where=` and no `out=`), so the
scorer's result is whatever the junk memory holds — 1 for junk row `[1, 0]`
and 0 for `[0, 1]` — not the 0 the spec requires. -/
theorem C10_zero_norm_bug :
    normR (embZero "a") = 0 ∧
    matchScoreR embZero junkRow10 junkNil ["a"] ["x"] = 1 ∧
    matchScoreR embZero junkRow01 junkNil ["a"] ["x"] = 0 := by
  have hz : normR (embZero "a") = 0 := by rw [embZero_a, normR_00]
  have hE : pyNormalizeRows junkNil [[(1:ℝ), 0]] = [[(1:ℝ), 0]] := by
    rw [pyNormalizeRows_cons, if_neg (by rw [normR_10]; exact one_ne_zero)]
    simp [pyNormalizeRows, normR_10]
  have hT10 : pyNormalizeRows junkRow10 [[(0:ℝ), 0]] = [[(1:ℝ), 0]] := by
    rw [pyNormalizeRows_cons, if_pos normR_00]
    simp [pyNormalizeRows, junkRow10]
  have hT01 : pyNormalizeRows junkRow01 [[(0:ℝ), 0]] = [[(0:ℝ), 1]] := by
    rw [pyNormalizeRows_cons, if_pos normR_00]
    simp [pyNormalizeRows, junkRow01]
  refine ⟨hz, ?_, ?_⟩
  · rw [matchScoreR]
    have hM : cosSimMatrix embZero junkRow10 junkNil ["a"] ["x"] = [[(1:ℝ)]] := by
      simp only [cosSimMatrix, List.map_cons, List.map_nil, embZero_a, embZero_x]
      rw [hT10, hE]
      simp [dotR_11, clipR]
    simp [hM, matchScoreOf, listMean, listMax]
  · rw [matchScoreR]
    have hM : cosSimMatrix embZero junkRow01 junkNil ["a"] ["x"] = [[(0:ℝ)]] := by
      simp only [cosSimMatrix, List.map_cons, List.map_nil, embZero_a, embZero_x]
      rw [hT01, hE]
      have hd : dotR [(0:ℝ), 1] [(1:ℝ), 0] = 0 := by simp [dotR]
      simp [hd, clipR]
    simp [hM, matchScoreOf, listMean, listMax]
